import Mathlib

/-!
# Verification of the dailyhues two-level deduplication cache

This development gives a shallow embedding of the core cache and locking
logic of the dailyhues server and proves properties of it.

Embedded source:
* `handleGetColors` (main HTTP resolution pipeline, steps 1-10),
  `buildColorTheme`, `buildColorThemeFromInfo`, `getNextHourBoundary`
  from the main package;
* `RequestCache` (`makeKey`, `Get`, `Set`) keyed by `locale_daysAgo`;
* `AnalysisCache` (`Get`, `Set`, `GetMutex`) keyed by the image hash.

Modelling conventions:
* Go `time.Time` values are integers (seconds); `time.Now().Before(t)`
  is `now < t`.
* Go maps are total functions into `Option`; map insertion is
  `Function.update`.
* The raw image bytes are a `List Nat`; the SHA-256 fingerprint function
  `HashImage` is kept abstract (an environment parameter), since no claim
  depends on the digest internals, only on the fingerprint value.
* External collaborators (Bing feed fetch, AI analysis, file persistence)
  are environment-supplied outcomes (`Except`), as the embedded code only
  observes their results.
* `sync.Mutex` instances handed out by the lock registry are identified by
  allocation ids (`Nat`): two Go `*sync.Mutex` values are the same instance
  exactly when they come from the same allocation.
-/

/-- Palette payload returned by the AI collaborator: an open map of named
values, modelled as an association list. -/
def Colors := List (String × String)
deriving DecidableEq, Inhabited

/-- Wallpaper metadata returned by the Bing feed client. -/
structure WallpaperInfo where
  title : String
  copyright : String
  copyrightLink : String
  startDate : String
  fullStartDate : String
  endDate : String
  imageURLs : List (String × String)
deriving DecidableEq

/-- RequestEntry stores metadata about a wallpaper request
(cache/hash.go version keyed by locale and daysAgo). -/
structure RequestEntry where
  locale : String
  daysAgo : Int
  imageHash : String
  imageURLs : List (String × String)
  title : String
  copyright : String
  copyrightLink : String
  startDate : String
  fullStartDate : String
  endDate : String
  expiresAt : Int
deriving DecidableEq

/-- AnalysisEntry stores AI analysis results for a wallpaper image,
keyed by the content fingerprint of the raw bytes. -/
structure AnalysisEntry where
  imageHash : String
  colors : Colors
deriving DecidableEq

/-- In-memory mirror of the request store: logical key string to entry. -/
def RequestData := String → Option RequestEntry

/-- In-memory mirror of the analysis store: fingerprint to entry. -/
def AnalysisData := String → Option AnalysisEntry

/-- makeKey creates a cache key from locale and daysAgo
(`fmt.Sprintf("%s_%d", locale, daysAgo)`). -/
def RequestCache.makeKey (locale : String) (daysAgo : Int) : String :=
  locale ++ "_" ++ Int.repr daysAgo

/-- RequestCache.Get: retrieves a request entry; returns whatever is stored,
expiry is evaluated by the caller. -/
def RequestCache.get (data : RequestData) (locale : String) (daysAgo : Int) :
    Option RequestEntry :=
  data (RequestCache.makeKey locale daysAgo)

/-- In-memory part of RequestCache.Set: stores a request entry under the
composite key, overwriting any prior entry. -/
def RequestCache.set (data : RequestData) (locale : String) (daysAgo : Int)
    (imageHash : String) (imageURLs : List (String × String))
    (title copyright copyrightLink startDate fullStartDate endDate : String)
    (expiresAt : Int) : RequestData :=
  Function.update data (RequestCache.makeKey locale daysAgo)
    (some { locale, daysAgo, imageHash, imageURLs, title, copyright,
            copyrightLink, startDate, fullStartDate, endDate, expiresAt })

/-- AnalysisCache.Get: retrieves an analysis entry by image hash from the
in-memory mirror. -/
def AnalysisCache.get (data : AnalysisData) (imageHash : String) :
    Option AnalysisEntry :=
  data imageHash

/-- In-memory part of AnalysisCache.Set: stores the entry in the mirror. -/
def AnalysisCache.setData (data : AnalysisData) (imageHash : String)
    (colors : Colors) : AnalysisData :=
  Function.update data imageHash (some { imageHash, colors })

/-- AnalysisCache.Set: writes the entry to the in-memory mirror and then
persists it to disk. The durable write's outcome (`saveResult`) comes from
the filesystem and is returned to the caller; the in-memory write is
unconditional, exactly as in the Go code, which updates `c.data` before
`return c.saveToFile(entry)`. -/
def AnalysisCache.set (data : AnalysisData) (imageHash : String)
    (colors : Colors) (saveResult : Except String Unit) :
    AnalysisData × Except String Unit :=
  (AnalysisCache.setData data imageHash colors, saveResult)

/-- Process-wide registry of per-fingerprint locks. `processing` maps an
image hash to the id of the mutex allocated for it; `nextId` is the next
fresh allocation id. -/
structure LockRegistry where
  processing : String → Option Nat
  nextId : Nat

/-- Registry of a fresh `AnalysisCache`: no mutexes allocated yet. -/
def LockRegistry.init : LockRegistry :=
  { processing := fun _ => none, nextId := 0 }

/-- AnalysisCache.GetMutex: gets or creates a mutex for a specific image
hash. The Go body runs entirely under the registry-wide `processingL`
lock, so it is modelled as one atomic step on the registry state. A cache
hit returns the registered mutex unchanged; a miss allocates a fresh
mutex (a fresh id) and registers it. -/
def AnalysisCache.getMutex (reg : LockRegistry) (imageHash : String) :
    Nat × LockRegistry :=
  match reg.processing imageHash with
  | some mu => (mu, reg)
  | none =>
      (reg.nextId,
       { processing := Function.update reg.processing imageHash (some reg.nextId),
         nextId := reg.nextId + 1 })

/-- Modelled from the spec: the body of `AnalysisCache.ReleaseMutex` is not
under src/ (only its call site in `handleGetColors` is), so it is taken
from spec section 4.4, which states that locks are never removed from the
registry in this design; the registry map is therefore left unchanged. -/
def AnalysisCache.releaseMutex (reg : LockRegistry) (_imageHash : String) :
    LockRegistry :=
  reg

/-- An operation on the lock registry performed during the process
lifetime. -/
inductive RegistryOp where
  | getMutexOp (imageHash : String)
  | releaseMutexOp (imageHash : String)

/-- Applies one registry operation to the registry state. -/
def LockRegistry.applyOp (reg : LockRegistry) : RegistryOp → LockRegistry
  | .getMutexOp h => (AnalysisCache.getMutex reg h).2
  | .releaseMutexOp h => AnalysisCache.releaseMutex reg h

/-- Applies a sequence of registry operations in order. -/
def LockRegistry.applyOps (reg : LockRegistry) : List RegistryOp → LockRegistry
  | [] => reg
  | op :: ops => LockRegistry.applyOps (reg.applyOp op) ops

/-- Well-formedness of the lock registry: every registered mutex id is
below the allocation counter, and no two keys share a mutex instance. -/
def LockRegistry.Inv (reg : LockRegistry) : Prop :=
  (∀ k id, reg.processing k = some id → id < reg.nextId) ∧
  (∀ k₁ k₂ id, reg.processing k₁ = some id → reg.processing k₂ = some id → k₁ = k₂)

/-- ColorTheme is the HTTP response body with extracted colors. `cachedAt`
holds the `time.Now()` timestamp at response construction. -/
structure ColorTheme where
  startDate : String
  fullStartDate : String
  endDate : String
  images : List (String × String)
  colors : Colors
  title : String
  copyright : String
  copyrightLink : String
  cachedAt : Int
deriving DecidableEq

/-- HTTP response of a resolution: a success body or a status plus an error
message (the `ErrorResponse` JSON). -/
inductive Response where
  | ok (theme : ColorTheme)
  | err (status : Nat) (msg : String)
deriving DecidableEq

/-- Shared in-memory state of both stores. -/
structure AppState where
  requestData : RequestData
  analysisData : AnalysisData

/-- Observable side effects of one resolution, in program order. Mutex
events record the step-5 lock acquisition and the deferred releases that
run when the handler returns. -/
inductive Event where
  | bingFetch (locale : String) (daysAgo : Int)
  | mutexLock (imageHash : String)
  | aiCall (imageHash : String)
  | analysisWrite (imageHash : String)
  | requestWrite (key : String)
  | releaseMutexCall (imageHash : String)
  | mutexUnlock (imageHash : String)
deriving DecidableEq

/-- Result of one sequential run of the resolution pipeline. -/
structure ResolveOutcome where
  response : Response
  state : AppState
  events : List Event

/-- Environment of one resolution: current time, outcomes of the external
collaborators, the content fingerprint function, and the filesystem
outcomes of the two durable writes. -/
structure Env where
  now : Int
  bing : Except String (List Nat × WallpaperInfo)
  ai : Except String Colors
  hashImage : List Nat → String
  analysisSave : Except String Unit
  requestSave : Except String Unit

/-- buildColorTheme creates a ColorTheme response from cache entries. -/
def buildColorTheme (reqEntry : RequestEntry) (analysisEntry : AnalysisEntry)
    (now : Int) : ColorTheme :=
  { startDate := reqEntry.startDate
    fullStartDate := reqEntry.fullStartDate
    endDate := reqEntry.endDate
    images := reqEntry.imageURLs
    colors := analysisEntry.colors
    title := reqEntry.title
    copyright := reqEntry.copyright
    copyrightLink := reqEntry.copyrightLink
    cachedAt := now }

/-- buildColorThemeFromInfo creates a ColorTheme response from wallpaper
info and an analysis entry. -/
def buildColorThemeFromInfo (info : WallpaperInfo) (analysisEntry : AnalysisEntry)
    (now : Int) : ColorTheme :=
  { startDate := info.startDate
    fullStartDate := info.fullStartDate
    endDate := info.endDate
    images := info.imageURLs
    colors := analysisEntry.colors
    title := info.title
    copyright := info.copyright
    copyrightLink := info.copyrightLink
    cachedAt := now }

/-- getNextHourBoundary returns the time at the start of the next hour
(`now.Truncate(time.Hour).Add(time.Hour)` with seconds granularity). -/
def getNextHourBoundary (now : Int) : Int :=
  (now - now % 3600) + 3600

/-- Steps 5-10 of `handleGetColors`: the per-fingerprint mutex is acquired,
the analysis cache is double-checked under it, and only on a still-miss is
the AI collaborator invoked and the commit performed. The two deferred
calls at the lock site run, in LIFO order (`ReleaseMutex` then `Unlock`),
on every return path below. -/
def resolveLocked (env : Env) (locale : String) (daysAgo : Int) (s : AppState)
    (info : WallpaperInfo) (imageHash : String) : ResolveOutcome :=
  -- Step 6: Double-check analysis cache (another goroutine might have completed)
  match AnalysisCache.get s.analysisData imageHash with
  | some analysisEntry =>
      let expiresAt := getNextHourBoundary env.now
      let requestData' := RequestCache.set s.requestData locale daysAgo imageHash
        info.imageURLs info.title info.copyright info.copyrightLink
        info.startDate info.fullStartDate info.endDate expiresAt
      { response := .ok (buildColorThemeFromInfo info analysisEntry env.now)
        state := { requestData := requestData', analysisData := s.analysisData }
        events := [.bingFetch locale daysAgo, .mutexLock imageHash,
                   .requestWrite (RequestCache.makeKey locale daysAgo),
                   .releaseMutexCall imageHash, .mutexUnlock imageHash] }
  | none =>
      -- Step 7: Analyze colors with AI (image already downloaded)
      match env.ai with
      | .error e =>
          { response := .err 500 ("Failed to analyze colors: " ++ e)
            state := s
            events := [.bingFetch locale daysAgo, .mutexLock imageHash,
                       .aiCall imageHash,
                       .releaseMutexCall imageHash, .mutexUnlock imageHash] }
      | .ok colors =>
          -- Step 8: Store analysis in cache (error from the durable write is
          -- logged, not propagated)
          let analysisData' :=
            (AnalysisCache.set s.analysisData imageHash colors env.analysisSave).1
          -- Step 9: Store request metadata in cache
          let expiresAt := getNextHourBoundary env.now
          let requestData' := RequestCache.set s.requestData locale daysAgo imageHash
            info.imageURLs info.title info.copyright info.copyrightLink
            info.startDate info.fullStartDate info.endDate expiresAt
          -- Step 10: Return response
          { response := .ok
              { startDate := info.startDate
                fullStartDate := info.fullStartDate
                endDate := info.endDate
                images := info.imageURLs
                colors := colors
                title := info.title
                copyright := info.copyright
                copyrightLink := info.copyrightLink
                cachedAt := env.now }
            state := { requestData := requestData', analysisData := analysisData' }
            events := [.bingFetch locale daysAgo, .mutexLock imageHash,
                       .aiCall imageHash, .analysisWrite imageHash,
                       .requestWrite (RequestCache.makeKey locale daysAgo),
                       .releaseMutexCall imageHash, .mutexUnlock imageHash] }

/-- Steps 2-10 of `handleGetColors`: the miss/stale path. Downloads the
wallpaper from Bing, fingerprints it, serves a cross-key analysis hit
without locking, and otherwise enters the locked section. -/
def resolveMiss (env : Env) (locale : String) (daysAgo : Int) (s : AppState) :
    ResolveOutcome :=
  -- Step 2: Download wallpaper metadata and image from Bing
  match env.bing with
  | .error e =>
      { response := .err 500 ("Failed to download wallpaper: " ++ e)
        state := s
        events := [.bingFetch locale daysAgo] }
  | .ok (imageData, info) =>
      -- Step 3: Generate image hash (this is our unique identifier)
      let imageHash := env.hashImage imageData
      -- Step 4: Check analysis cache by image hash
      match AnalysisCache.get s.analysisData imageHash with
      | some analysisEntry =>
          let expiresAt := getNextHourBoundary env.now
          let requestData' := RequestCache.set s.requestData locale daysAgo imageHash
            info.imageURLs info.title info.copyright info.copyrightLink
            info.startDate info.fullStartDate info.endDate expiresAt
          { response := .ok (buildColorThemeFromInfo info analysisEntry env.now)
            state := { requestData := requestData', analysisData := s.analysisData }
            events := [.bingFetch locale daysAgo,
                       .requestWrite (RequestCache.makeKey locale daysAgo)] }
      | none =>
          -- Step 5: Acquire mutex for this image hash
          resolveLocked env locale daysAgo s info imageHash

/-- handleGetColors resolution pipeline for a validated locale and daysAgo
(steps 1-10 of the Go handler). Step 1 is the fast path: a fresh request
entry whose analysis entry exists is served with no lock and no I/O. -/
def handleGetColors (env : Env) (locale : String) (daysAgo : Int) (s : AppState) :
    ResolveOutcome :=
  -- Step 1: Check request cache (with TTL validation)
  match RequestCache.get s.requestData locale daysAgo with
  | some reqEntry =>
      if env.now < reqEntry.expiresAt then
        match AnalysisCache.get s.analysisData reqEntry.imageHash with
        | some analysisEntry =>
            { response := .ok (buildColorTheme reqEntry analysisEntry env.now)
              state := s
              events := [] }
        | none => resolveMiss env locale daysAgo s
      else resolveMiss env locale daysAgo s
  | none => resolveMiss env locale daysAgo s

/-- Referential integrity of the two stores: every stored request entry
points at a fingerprint that has an analysis entry. -/
def StoreInv (s : AppState) : Prop :=
  ∀ key e, s.requestData key = some e →
    ∃ ae, s.analysisData e.imageHash = some ae

/-- When the request-cache lookup misses, or hits an entry whose expiry is
at or before the current time, the handler proceeds to the miss/stale
path. -/
theorem handle_eq_resolveMiss (env : Env) (locale : String) (daysAgo : Int)
    (s : AppState)
    (h : RequestCache.get s.requestData locale daysAgo = none ∨
         ∃ e, RequestCache.get s.requestData locale daysAgo = some e ∧
           e.expiresAt ≤ env.now) :
    handleGetColors env locale daysAgo s = resolveMiss env locale daysAgo s := by
  rcases h with h | ⟨e, he, hexp⟩
  · simp only [handleGetColors, h]
  · simp only [handleGetColors, he, if_neg (not_lt.mpr hexp)]

/-- C3: a stored RequestEntry whose `ExpiresAt` is at or before the current
time is never served as a fast-path cache hit: the handler behaves exactly
as the miss/stale path (which starts by downloading fresh metadata from
Bing), even though the entry — and possibly its analysis entry — is still
stored. -/
theorem expired_entry_never_served_as_hit (env : Env) (locale : String)
    (daysAgo : Int) (s : AppState) (e : RequestEntry)
    (hget : RequestCache.get s.requestData locale daysAgo = some e)
    (hexp : e.expiresAt ≤ env.now) :
    handleGetColors env locale daysAgo s = resolveMiss env locale daysAgo s :=
  handle_eq_resolveMiss env locale daysAgo s (Or.inr ⟨e, hget, hexp⟩)

/-- C2: on a request-cache miss (or expired hit) whose downloaded bytes
fingerprint to a hash that already has an analysis entry, the handler
returns the existing palette, writes a fresh RequestEntry for its own
logical key pointing at that fingerprint, and never invokes the AI
collaborator. -/
theorem cross_key_hit_returns_palette_without_ai (env : Env) (locale : String)
    (daysAgo : Int) (s : AppState) (imageData : List Nat)
    (info : WallpaperInfo) (ae : AnalysisEntry)
    (hmiss : RequestCache.get s.requestData locale daysAgo = none ∨
         ∃ e, RequestCache.get s.requestData locale daysAgo = some e ∧
           e.expiresAt ≤ env.now)
    (hbing : env.bing = .ok (imageData, info))
    (hae : AnalysisCache.get s.analysisData (env.hashImage imageData) = some ae) :
    (handleGetColors env locale daysAgo s).response =
      .ok (buildColorThemeFromInfo info ae env.now) ∧
    (handleGetColors env locale daysAgo s).state.analysisData = s.analysisData ∧
    RequestCache.get (handleGetColors env locale daysAgo s).state.requestData
        locale daysAgo = some
      { locale := locale, daysAgo := daysAgo
        imageHash := env.hashImage imageData
        imageURLs := info.imageURLs, title := info.title
        copyright := info.copyright, copyrightLink := info.copyrightLink
        startDate := info.startDate, fullStartDate := info.fullStartDate
        endDate := info.endDate, expiresAt := getNextHourBoundary env.now } ∧
    ∀ h, Event.aiCall h ∉ (handleGetColors env locale daysAgo s).events := by
  rw [handle_eq_resolveMiss env locale daysAgo s hmiss]
  simp only [resolveMiss, hbing, hae]
  refine ⟨trivial, trivial, ?_, ?_⟩
  · simp only [RequestCache.get, RequestCache.set, Function.update_same]
  · intro h
    simp

/-- C8: when the AI call of step 7 fails, the handler returns an analysis
error, both stores are exactly as they were when the lock was acquired,
and the deferred releases of the per-fingerprint mutex run before the
return (the release events follow the failed AI call in the trace). -/
theorem ai_failure_releases_lock_writes_nothing (env : Env) (locale : String)
    (daysAgo : Int) (s : AppState) (imageData : List Nat)
    (info : WallpaperInfo) (e : String)
    (hmiss : RequestCache.get s.requestData locale daysAgo = none ∨
         ∃ re, RequestCache.get s.requestData locale daysAgo = some re ∧
           re.expiresAt ≤ env.now)
    (hbing : env.bing = .ok (imageData, info))
    (hnone : AnalysisCache.get s.analysisData (env.hashImage imageData) = none)
    (hai : env.ai = .error e) :
    handleGetColors env locale daysAgo s =
      { response := .err 500 ("Failed to analyze colors: " ++ e)
        state := s
        events := [.bingFetch locale daysAgo,
                   .mutexLock (env.hashImage imageData),
                   .aiCall (env.hashImage imageData),
                   .releaseMutexCall (env.hashImage imageData),
                   .mutexUnlock (env.hashImage imageData)] } := by
  rw [handle_eq_resolveMiss env locale daysAgo s hmiss]
  simp only [resolveMiss, hbing, hnone, resolveLocked, hai]

/-- Writing a request entry that points at a fingerprint whose analysis
entry exists preserves referential integrity. -/
theorem storeInv_after_requestSet (s : AppState) (hinv : StoreInv s)
    (locale : String) (daysAgo : Int) (imageHash : String) (ae : AnalysisEntry)
    (hae : s.analysisData imageHash = some ae)
    (imageURLs : List (String × String))
    (title copyright copyrightLink startDate fullStartDate endDate : String)
    (expiresAt : Int) :
    StoreInv { requestData := RequestCache.set s.requestData locale daysAgo
                 imageHash imageURLs title copyright copyrightLink
                 startDate fullStartDate endDate expiresAt
               analysisData := s.analysisData } := by
  intro key e hkey
  dsimp only at hkey ⊢
  simp only [RequestCache.set] at hkey
  by_cases hk : key = RequestCache.makeKey locale daysAgo
  · subst hk
    rw [Function.update_same] at hkey
    cases hkey
    exact ⟨ae, hae⟩
  · rw [Function.update_noteq hk] at hkey
    exact hinv key e hkey

/-- The locked section (steps 6-10) preserves referential integrity. -/
theorem storeInv_resolveLocked (env : Env) (locale : String) (daysAgo : Int)
    (s : AppState) (info : WallpaperInfo) (imageHash : String)
    (hinv : StoreInv s) :
    StoreInv (resolveLocked env locale daysAgo s info imageHash).state := by
  cases hae : AnalysisCache.get s.analysisData imageHash with
  | some ae =>
      simp only [resolveLocked, hae]
      exact storeInv_after_requestSet s hinv locale daysAgo imageHash ae hae
        info.imageURLs info.title info.copyright info.copyrightLink
        info.startDate info.fullStartDate info.endDate (getNextHourBoundary env.now)
  | none =>
      cases hai : env.ai with
      | error e => simp only [resolveLocked, hae, hai]; exact hinv
      | ok colors =>
          simp only [resolveLocked, hae, hai, AnalysisCache.set]
          intro key e hkey
          dsimp only at hkey ⊢
          simp only [RequestCache.set] at hkey
          by_cases hk : key = RequestCache.makeKey locale daysAgo
          · subst hk
            rw [Function.update_same] at hkey
            cases hkey
            exact ⟨{ imageHash, colors }, by
              simp only [AnalysisCache.setData, Function.update_same]⟩
          · rw [Function.update_noteq hk] at hkey
            obtain ⟨ae, hae2⟩ := hinv key e hkey
            by_cases hh : e.imageHash = imageHash
            · refine ⟨{ imageHash, colors }, ?_⟩
              rw [hh]
              simp only [AnalysisCache.setData, Function.update_same]
            · refine ⟨ae, ?_⟩
              simp only [AnalysisCache.setData, Function.update_noteq hh]
              exact hae2

/-- The miss/stale path (steps 2-10) preserves referential integrity. -/
theorem storeInv_resolveMiss (env : Env) (locale : String) (daysAgo : Int)
    (s : AppState) (hinv : StoreInv s) :
    StoreInv (resolveMiss env locale daysAgo s).state := by
  cases hbing : env.bing with
  | error e => simp only [resolveMiss, hbing]; exact hinv
  | ok p =>
      obtain ⟨imageData, info⟩ := p
      cases hae : AnalysisCache.get s.analysisData (env.hashImage imageData) with
      | some ae =>
          simp only [resolveMiss, hbing, hae]
          exact storeInv_after_requestSet s hinv locale daysAgo
            (env.hashImage imageData) ae hae info.imageURLs info.title
            info.copyright info.copyrightLink info.startDate info.fullStartDate
            info.endDate (getNextHourBoundary env.now)
      | none =>
          simp only [resolveMiss, hbing, hae]
          exact storeInv_resolveLocked env locale daysAgo s info
            (env.hashImage imageData) hinv

/-- The full handler preserves referential integrity on every path. -/
theorem storeInv_handleGetColors (env : Env) (locale : String) (daysAgo : Int)
    (s : AppState) (hinv : StoreInv s) :
    StoreInv (handleGetColors env locale daysAgo s).state := by
  cases hget : RequestCache.get s.requestData locale daysAgo with
  | none =>
      simp only [handleGetColors, hget]
      exact storeInv_resolveMiss env locale daysAgo s hinv
  | some reqEntry =>
      simp only [handleGetColors, hget]
      by_cases hfresh : env.now < reqEntry.expiresAt
      · rw [if_pos hfresh]
        cases hae : AnalysisCache.get s.analysisData reqEntry.imageHash with
        | some analysisEntry => simp only [hae]; exact hinv
        | none =>
            simp only [hae]
            exact storeInv_resolveMiss env locale daysAgo s hinv
      · rw [if_neg hfresh]
        exact storeInv_resolveMiss env locale daysAgo s hinv

/-- C7: the handler preserves referential integrity on every path (no
stored RequestEntry ever references a fingerprint without an analysis
entry), and on a successful true-miss resolution the analysis entry is
committed to the analysis store and the request entry then written over
it — the trace records the analysis write strictly before the request
write. -/
theorem analysis_committed_before_request_entry (env : Env) (locale : String)
    (daysAgo : Int) (s : AppState) (imageData : List Nat)
    (info : WallpaperInfo) (colors : Colors)
    (hmiss : RequestCache.get s.requestData locale daysAgo = none ∨
         ∃ re, RequestCache.get s.requestData locale daysAgo = some re ∧
           re.expiresAt ≤ env.now)
    (hbing : env.bing = .ok (imageData, info))
    (hnone : AnalysisCache.get s.analysisData (env.hashImage imageData) = none)
    (hai : env.ai = .ok colors) :
    (∀ (env' : Env) (locale' : String) (daysAgo' : Int) (s' : AppState),
        StoreInv s' → StoreInv (handleGetColors env' locale' daysAgo' s').state) ∧
    (handleGetColors env locale daysAgo s).state.analysisData =
      AnalysisCache.setData s.analysisData (env.hashImage imageData) colors ∧
    (handleGetColors env locale daysAgo s).state.requestData =
      RequestCache.set s.requestData locale daysAgo (env.hashImage imageData)
        info.imageURLs info.title info.copyright info.copyrightLink
        info.startDate info.fullStartDate info.endDate
        (getNextHourBoundary env.now) ∧
    (handleGetColors env locale daysAgo s).events =
      [.bingFetch locale daysAgo, .mutexLock (env.hashImage imageData),
       .aiCall (env.hashImage imageData),
       .analysisWrite (env.hashImage imageData),
       .requestWrite (RequestCache.makeKey locale daysAgo),
       .releaseMutexCall (env.hashImage imageData),
       .mutexUnlock (env.hashImage imageData)] := by
  refine ⟨storeInv_handleGetColors, ?_⟩
  rw [handle_eq_resolveMiss env locale daysAgo s hmiss]
  simp only [resolveMiss, hbing, hnone, resolveLocked, hai, AnalysisCache.set]
  exact ⟨trivial, trivial, trivial⟩

/-- Empty shared state: both in-memory mirrors are empty. -/
def AppState.empty : AppState :=
  { requestData := fun _ => none, analysisData := fun _ => none }

/-- Environment in which the Bing download fails with a raw transport
error. -/
def envBingDown : Env :=
  { now := 0
    bing := .error "dial tcp 203.0.113.7:443: connect: connection refused"
    ai := .error "unused"
    hashImage := fun _ => ""
    analysisSave := .ok ()
    requestSave := .ok () }

/-- Environment in which the wallpaper downloads but the AI call fails with
a raw upstream error. -/
def envAiDown : Env :=
  { now := 0
    bing := .ok ([7], { title := "t", copyright := "c", copyrightLink := "l",
                        startDate := "20251010", fullStartDate := "202510100700",
                        endDate := "20251011", imageURLs := [] })
    ai := .error "openrouter: status 500: upstream shed load"
    hashImage := fun _ => "f1"
    analysisSave := .ok ()
    requestSave := .ok () }

/-- C6: the error messages delivered to the HTTP caller on an
upstream-fetch failure and on an analysis failure embed the raw internal
error text of the external collaborator verbatim — they are passthroughs,
not sanitized summaries. Evaluates the handler at concrete failing
inputs. -/
theorem error_messages_contain_raw_internal_text :
    (handleGetColors envBingDown "en-US" 0 AppState.empty).response =
      .err 500 ("Failed to download wallpaper: " ++
        "dial tcp 203.0.113.7:443: connect: connection refused") ∧
    (handleGetColors envAiDown "en-US" 0 AppState.empty).response =
      .err 500 ("Failed to analyze colors: " ++
        "openrouter: status 500: upstream shed load") := by
  exact ⟨rfl, rfl⟩

/-- C9: `AnalysisCache.Set` updates the in-memory mirror regardless of the
durable write's outcome: a persist failure is reported to the caller but
does not roll back the in-memory write, a subsequent `Get` still returns
the stored palette, and a repeated identical write leaves the in-memory
state unchanged. -/
theorem analysis_set_memory_before_persist (data : AnalysisData)
    (imageHash : String) (colors : Colors) (errMsg : String) :
    (AnalysisCache.set data imageHash colors (.error errMsg)).2 =
      .error errMsg ∧
    (∀ saveResult, (AnalysisCache.set data imageHash colors saveResult).1 =
      AnalysisCache.setData data imageHash colors) ∧
    AnalysisCache.get
      (AnalysisCache.set data imageHash colors (.error errMsg)).1 imageHash =
      some { imageHash, colors } ∧
    AnalysisCache.setData (AnalysisCache.setData data imageHash colors)
      imageHash colors = AnalysisCache.setData data imageHash colors := by
  refine ⟨rfl, fun _ => rfl, ?_, ?_⟩
  · simp only [AnalysisCache.set, AnalysisCache.get, AnalysisCache.setData,
      Function.update_same]
  · simp only [AnalysisCache.setData, Function.update_idem]

/-- The fresh registry is well formed. -/
theorem LockRegistry.init_inv : LockRegistry.init.Inv := by
  constructor
  · intro k id h
    exact nomatch h
  · intro k₁ k₂ id h₁ h₂
    exact nomatch h₁

/-- GetMutex preserves registry well-formedness. -/
theorem getMutex_preserves_inv (reg : LockRegistry) (hinv : reg.Inv)
    (k : String) : (AnalysisCache.getMutex reg k).2.Inv := by
  cases hk : reg.processing k with
  | some mu => simp only [AnalysisCache.getMutex, hk]; exact hinv
  | none =>
      simp only [AnalysisCache.getMutex, hk]
      constructor
      · intro k' id h
        dsimp only at h ⊢
        by_cases hkk : k' = k
        · subst hkk
          rw [Function.update_same] at h
          cases h
          exact Nat.lt_succ_self _
        · rw [Function.update_noteq hkk] at h
          exact Nat.lt_succ_of_lt (hinv.1 k' id h)
      · intro k₁ k₂ id h₁ h₂
        dsimp only at h₁ h₂
        by_cases h₁k : k₁ = k <;> by_cases h₂k : k₂ = k
        · rw [h₁k, h₂k]
        · subst h₁k
          rw [Function.update_same] at h₁
          rw [Function.update_noteq h₂k] at h₂
          cases h₁
          exact absurd (hinv.1 k₂ _ h₂) (lt_irrefl _)
        · subst h₂k
          rw [Function.update_same] at h₂
          rw [Function.update_noteq h₁k] at h₁
          cases h₂
          exact absurd (hinv.1 k₁ _ h₁) (lt_irrefl _)
        · rw [Function.update_noteq h₁k] at h₁
          rw [Function.update_noteq h₂k] at h₂
          exact hinv.2 k₁ k₂ id h₁ h₂

/-- C4: on a well-formed registry, two GetMutex calls with the same
image-hash key return the same underlying mutex instance, and a call with
a different key returns a distinct instance; GetMutex keeps the registry
well formed, and the fresh registry is well formed. The single atomic
lookup-or-create step reflects the Go body running under the
registry-wide `processingL` lock. -/
theorem getMutex_same_key_same_instance (reg : LockRegistry) (hinv : reg.Inv)
    (k k₁ k₂ : String) (hne : k₁ ≠ k₂) :
    (AnalysisCache.getMutex (AnalysisCache.getMutex reg k).2 k).1 =
      (AnalysisCache.getMutex reg k).1 ∧
    (AnalysisCache.getMutex (AnalysisCache.getMutex reg k₁).2 k₂).1 ≠
      (AnalysisCache.getMutex reg k₁).1 ∧
    (AnalysisCache.getMutex reg k).2.Inv ∧
    LockRegistry.init.Inv := by
  refine ⟨?_, ?_, getMutex_preserves_inv reg hinv k, LockRegistry.init_inv⟩
  · cases hk : reg.processing k with
    | some mu => simp only [AnalysisCache.getMutex, hk]
    | none =>
        simp only [AnalysisCache.getMutex, hk, Function.update_same]
  · cases hk₁ : reg.processing k₁ with
    | some mu₁ =>
        simp only [AnalysisCache.getMutex, hk₁]
        cases hk₂ : reg.processing k₂ with
        | some mu₂ =>
            simp only [hk₂]
            intro h
            cases h
            exact hne (hinv.2 k₁ k₂ mu₁ hk₁ hk₂)
        | none =>
            simp only [hk₂]
            intro h
            have := hinv.1 k₁ _ hk₁
            omega
    | none =>
        simp only [AnalysisCache.getMutex, hk₁, Function.update_noteq (Ne.symm hne)]
        cases hk₂ : reg.processing k₂ with
        | some mu₂ =>
            simp only [hk₂]
            intro h
            have := hinv.1 k₂ _ hk₂
            omega
        | none =>
            simp only [hk₂]
            omega

/-- C5: once a per-fingerprint lock is registered, no sequence of registry
operations of the program (GetMutex, ReleaseMutex) ever removes or
replaces it: the same mutex instance stays registered under its key for
the lifetime of the process. -/
theorem registered_lock_never_removed (reg : LockRegistry)
    (ops : List RegistryOp) (k : String) (id : Nat)
    (h : reg.processing k = some id) :
    (reg.applyOps ops).processing k = some id := by
  induction ops generalizing reg with
  | nil => exact h
  | cons op ops ih =>
      apply ih
      cases op with
      | getMutexOp h' =>
          simp only [LockRegistry.applyOp]
          cases hk : reg.processing h' with
          | some mu => simp only [AnalysisCache.getMutex, hk]; exact h
          | none =>
              simp only [AnalysisCache.getMutex, hk]
              have hne : k ≠ h' := by
                intro hkh
                rw [hkh, hk] at h
                exact nomatch h
              rw [Function.update_noteq hne]
              exact h
      | releaseMutexOp h' => exact h

/-- Decimal digit list of a natural number, most significant digit first:
the functional (fuel-free) form of core's `Nat.toDigitsCore` at base 10,
used to reason about the `%d` rendering inside `makeKey`. -/
def decRep (n : Nat) : List Char :=
  if _h : n < 10 then [Nat.digitChar n]
  else decRep (n / 10) ++ [Nat.digitChar (n % 10)]
decreasing_by exact Nat.div_lt_self (by omega) (by omega)

/-- Unfolding of `decRep` for a single digit. -/
theorem decRep_of_lt {n : Nat} (h : n < 10) : decRep n = [Nat.digitChar n] := by
  rw [decRep]
  simp [h]

/-- Unfolding of `decRep` for numbers of two or more digits. -/
theorem decRep_of_ge {n : Nat} (h : ¬n < 10) :
    decRep n = decRep (n / 10) ++ [Nat.digitChar (n % 10)] := by
  rw [decRep]
  simp [h]

/-- The fuelled digit renderer of core agrees with `decRep` whenever the
fuel covers the number of digits. -/
theorem toDigitsCore_eq_decRep :
    ∀ (f n : Nat) (ds : List Char), 0 < f → n < 10 ^ f →
      Nat.toDigitsCore 10 f n ds = decRep n ++ ds := by
  intro f
  induction f with
  | zero => intro n ds h _; exact absurd h (lt_irrefl 0)
  | succ f ih =>
      intro n ds _ hlt
      simp only [Nat.toDigitsCore]
      by_cases h0 : n / 10 = 0
      · have hn : n < 10 := by omega
        simp only [h0, if_true]
        rw [decRep_of_lt hn, Nat.mod_eq_of_lt hn]
        rfl
      · have hn : ¬n < 10 := by omega
        simp only [h0, if_false]
        have hf : 0 < f := by
          rcases Nat.eq_zero_or_pos f with hf0 | hf0
          · subst hf0
            simp at hlt
            omega
          · exact hf0
        have hdiv : n / 10 < 10 ^ f := by
          rw [Nat.div_lt_iff_lt_mul (by omega)]
          calc n < 10 ^ (f + 1) := hlt
            _ = 10 ^ f * 10 := by rw [pow_succ]
        rw [ih (n / 10) (Nat.digitChar (n % 10) :: ds) hf hdiv,
          decRep_of_ge hn]
        simp

/-- `Nat.repr` is `decRep` rendered as a string. -/
theorem natRepr_eq_decRep (n : Nat) : Nat.repr n = (decRep n).asString := by
  show (Nat.toDigits 10 n).asString = _
  unfold Nat.toDigits
  rw [toDigitsCore_eq_decRep (n + 1) n [] (Nat.succ_pos n)
    (lt_of_lt_of_le (Nat.lt_pow_self (by omega) n)
      (Nat.pow_le_pow_right (by omega) (Nat.le_succ n))),
    List.append_nil]

/-- `Nat.digitChar` is injective on single digits. -/
theorem digitChar_inj_fin :
    ∀ m k : Fin 10, Nat.digitChar m.val = Nat.digitChar k.val → m = k := by
  decide

/-- No single-digit character is the minus sign. -/
theorem digitChar_ne_dash : ∀ m : Fin 10, Nat.digitChar m.val ≠ '-' := by
  decide

/-- Injectivity of `Nat.digitChar` below 10, on bare naturals. -/
theorem digitChar_inj {m k : Nat} (hm : m < 10) (hk : k < 10)
    (h : Nat.digitChar m = Nat.digitChar k) : m = k :=
  congrArg Fin.val (digitChar_inj_fin ⟨m, hm⟩ ⟨k, hk⟩ h)

/-- A decimal rendering always has at least one digit. -/
theorem decRep_ne_nil (n : Nat) : decRep n ≠ [] := by
  by_cases h : n < 10
  · rw [decRep_of_lt h]
    simp
  · rw [decRep_of_ge h]
    simp

/-- Every character of a decimal rendering is a digit character. -/
theorem decRep_all_digits (n : Nat) :
    ∀ c ∈ decRep n, ∃ k, k < 10 ∧ c = Nat.digitChar k := by
  induction n using Nat.strong_induction_on with
  | _ n ih =>
    by_cases h : n < 10
    · rw [decRep_of_lt h]
      intro c hc
      simp at hc
      exact ⟨n, h, hc⟩
    · rw [decRep_of_ge h]
      intro c hc
      rw [List.mem_append] at hc
      rcases hc with hc | hc
      · exact ih (n / 10) (Nat.div_lt_self (by omega) (by omega)) c hc
      · simp at hc
        exact ⟨n % 10, Nat.mod_lt _ (by omega), hc⟩

/-- The minus sign never occurs in a decimal rendering of a natural. -/
theorem dash_not_mem_decRep (n : Nat) : '-' ∉ decRep n := by
  intro hmem
  obtain ⟨k, hk, hck⟩ := decRep_all_digits n '-' hmem
  exact digitChar_ne_dash ⟨k, hk⟩ hck.symm

/-- Two naturals with the same decimal rendering are equal. -/
theorem decRep_inj : ∀ m n : Nat, decRep m = decRep n → m = n := by
  intro m
  induction m using Nat.strong_induction_on with
  | _ m ih =>
    intro n h
    by_cases hm : m < 10 <;> by_cases hn : n < 10
    · rw [decRep_of_lt hm, decRep_of_lt hn] at h
      simp at h
      exact digitChar_inj hm hn h
    · rw [decRep_of_lt hm, decRep_of_ge hn] at h
      have hlen := congrArg List.length h
      simp at hlen
      exact absurd hlen (decRep_ne_nil (n / 10))
    · rw [decRep_of_ge hm, decRep_of_lt hn] at h
      have hlen := congrArg List.length h
      simp at hlen
      exact absurd hlen (decRep_ne_nil (m / 10))
    · rw [decRep_of_ge hm, decRep_of_ge hn] at h
      obtain ⟨h1, h2⟩ := List.append_inj' h (by simp)
      have hdiv := ih (m / 10) (Nat.div_lt_self (by omega) (by omega)) (n / 10) h1
      simp at h2
      have hmod := digitChar_inj (Nat.mod_lt _ (by omega)) (Nat.mod_lt _ (by omega)) h2
      omega

/-- `Nat.repr` is injective. -/
theorem natRepr_inj {m n : Nat} (h : Nat.repr m = Nat.repr n) : m = n := by
  rw [natRepr_eq_decRep, natRepr_eq_decRep] at h
  exact decRep_inj m n (congrArg String.data h)

/-- `Int.repr` (the `%d` rendering of a Go int) is injective. -/
theorem intRepr_inj : ∀ {a b : Int}, Int.repr a = Int.repr b → a = b := by
  intro a b h
  cases a with
  | ofNat m =>
      cases b with
      | ofNat n => exact congrArg Int.ofNat (natRepr_inj h)
      | negSucc n =>
          exfalso
          have hd : (Nat.repr m).data = '-' :: (Nat.repr (n + 1)).data :=
            congrArg String.data h
          have hmem : '-' ∈ (Nat.repr m).data := by
            rw [hd]
            exact List.mem_cons_self _ _
          rw [natRepr_eq_decRep] at hmem
          exact dash_not_mem_decRep m hmem
  | negSucc m =>
      cases b with
      | ofNat n =>
          exfalso
          have hd : '-' :: (Nat.repr (m + 1)).data = (Nat.repr n).data :=
            congrArg String.data h
          have hmem : '-' ∈ (Nat.repr n).data := by
            rw [← hd]
            exact List.mem_cons_self _ _
          rw [natRepr_eq_decRep] at hmem
          exact dash_not_mem_decRep n hmem
      | negSucc n =>
          have hd : '-' :: (Nat.repr (m + 1)).data = '-' :: (Nat.repr (n + 1)).data :=
            congrArg String.data h
          have hmn := natRepr_inj (String.ext (List.tail_eq_of_cons_eq hd))
          exact congrArg Int.negSucc (by omega)

/-- Splitting at a separator that occurs in neither prefix is unambiguous. -/
theorem append_sep_inj {α : Type} {c : α} :
    ∀ (a b t₁ t₂ : List α), c ∉ a → c ∉ b →
      a ++ c :: t₁ = b ++ c :: t₂ → a = b ∧ t₁ = t₂ := by
  intro a
  induction a with
  | nil =>
      intro b t₁ t₂ _ hb h
      cases b with
      | nil =>
          simp at h
          exact ⟨rfl, h⟩
      | cons y b' =>
          simp at h
          exfalso
          apply hb
          rw [h.1]
          exact List.mem_cons_self y b'
  | cons x a' ih =>
      intro b t₁ t₂ ha hb h
      cases b with
      | nil =>
          simp at h
          exfalso
          apply ha
          rw [h.1]
          exact List.mem_cons_self c a'
      | cons y b' =>
          simp at h
          obtain ⟨hxy, h'⟩ := h
          obtain ⟨h1, h2⟩ := ih b' t₁ t₂
            (fun hm => ha (List.mem_cons_of_mem x hm))
            (fun hm => hb (List.mem_cons_of_mem y hm)) h'
          exact ⟨by rw [hxy, h1], h2⟩

/-- For locales free of the underscore separator, the composite key built
by makeKey determines the locale and the daysAgo offset. -/
theorem makeKey_inj {l₁ l₂ : String} {d₁ d₂ : Int}
    (h₁ : '_' ∉ l₁.data) (h₂ : '_' ∉ l₂.data)
    (h : RequestCache.makeKey l₁ d₁ = RequestCache.makeKey l₂ d₂) :
    l₁ = l₂ ∧ d₁ = d₂ := by
  have hd : l₁.data ++ '_' :: (Int.repr d₁).data =
      l₂.data ++ '_' :: (Int.repr d₂).data := by
    have := congrArg String.data h
    simpa [RequestCache.makeKey] using this
  obtain ⟨hl, hr⟩ := append_sep_inj l₁.data l₂.data _ _ h₁ h₂ hd
  exact ⟨String.ext hl, intRepr_inj (String.ext hr)⟩

/-- C10: for distinct logical keys whose locales contain no underscore,
RequestCache.Set on one key leaves RequestCache.Get of the other
unchanged: the composite `locale_daysAgo` key is injective under that
precondition, so a write for one locale/offset never overwrites another
entry. -/
theorem request_set_never_clobbers_other_key (data : RequestData)
    (l₁ l₂ : String) (d₁ d₂ : Int) (imageHash : String)
    (imageURLs : List (String × String))
    (title copyright copyrightLink startDate fullStartDate endDate : String)
    (expiresAt : Int)
    (h₁ : '_' ∉ l₁.data) (h₂ : '_' ∉ l₂.data)
    (hne : (l₁, d₁) ≠ (l₂, d₂)) :
    RequestCache.get
      (RequestCache.set data l₁ d₁ imageHash imageURLs title copyright
        copyrightLink startDate fullStartDate endDate expiresAt) l₂ d₂ =
      RequestCache.get data l₂ d₂ := by
  show Function.update data (RequestCache.makeKey l₁ d₁) _
      (RequestCache.makeKey l₂ d₂) = data (RequestCache.makeKey l₂ d₂)
  refine Function.update_noteq ?_ _ _
  intro hkey
  obtain ⟨hl, hd⟩ := makeKey_inj h₂ h₁ hkey
  exact hne (by rw [hl, hd])

/-- Program counter of one resolution task in the locked section of
`handleGetColors` (steps 5-9), projected onto one shared fingerprint. A
task at `beforeLock` has passed the step-4 miss and is about to acquire
the per-fingerprint mutex; `atDoubleCheck` holds the mutex and is about to
re-read the analysis cache; `atAnalyze` saw the double-check miss and is
about to call the AI collaborator; `atCommit` has the palette and is about
to write it; the two done states record which exit path was taken. -/
inductive TaskPc where
  | beforeLock
  | atDoubleCheck
  | atAnalyze
  | atCommit
  | doneViaDoubleCheck
  | doneViaAnalyze
deriving DecidableEq

/-- Shared state of `n` concurrent resolutions of logical keys that all
fingerprint to one image: the per-task program counters, the analysis
store entry for that fingerprint, the owner of its mutex, which tasks
have invoked the AI collaborator, and the palette each finished task
returned. -/
structure ConcState (n : Nat) where
  pc : Fin n → TaskPc
  analysis : Option Colors
  mutexOwner : Option (Fin n)
  calledAI : Fin n → Bool
  observed : Fin n → Option Colors

/-- Interleaving semantics of steps 5-9 of `handleGetColors` for one
shared fingerprint. `aiColors` is the palette the AI collaborator computes
for this image. `lock` is the blocking `imageMutex.Lock()`; `checkHit` and
`checkMiss` are the two outcomes of the step-6 double-check (a hit also
writes the request entry, releases the mutex and returns); `analyze` is
the `AnalyzeColors` call; `commit` is the step-8 analysis write followed
by the request write, the deferred releases and the return. -/
inductive ConcStep (n : Nat) (aiColors : Colors) :
    ConcState n → ConcState n → Prop where
  | lock (s : ConcState n) (i : Fin n)
      (hpc : s.pc i = .beforeLock) (hmu : s.mutexOwner = none) :
      ConcStep n aiColors s
        { s with pc := Function.update s.pc i .atDoubleCheck
                 mutexOwner := some i }
  | checkHit (s : ConcState n) (i : Fin n) (c : Colors)
      (hpc : s.pc i = .atDoubleCheck) (hmu : s.mutexOwner = some i)
      (hana : s.analysis = some c) :
      ConcStep n aiColors s
        { s with pc := Function.update s.pc i .doneViaDoubleCheck
                 observed := Function.update s.observed i (some c)
                 mutexOwner := none }
  | checkMiss (s : ConcState n) (i : Fin n)
      (hpc : s.pc i = .atDoubleCheck) (hmu : s.mutexOwner = some i)
      (hana : s.analysis = none) :
      ConcStep n aiColors s
        { s with pc := Function.update s.pc i .atAnalyze }
  | analyze (s : ConcState n) (i : Fin n)
      (hpc : s.pc i = .atAnalyze) (hmu : s.mutexOwner = some i) :
      ConcStep n aiColors s
        { s with pc := Function.update s.pc i .atCommit
                 calledAI := Function.update s.calledAI i true }
  | commit (s : ConcState n) (i : Fin n)
      (hpc : s.pc i = .atCommit) (hmu : s.mutexOwner = some i) :
      ConcStep n aiColors s
        { s with pc := Function.update s.pc i .doneViaAnalyze
                 analysis := some aiColors
                 observed := Function.update s.observed i (some aiColors)
                 mutexOwner := none }

/-- Initial state of a cold-cache race: no analysis entry for the
fingerprint, the mutex free, every task about to acquire it. -/
def ConcInit (n : Nat) : ConcState n :=
  { pc := fun _ => .beforeLock
    analysis := none
    mutexOwner := none
    calledAI := fun _ => false
    observed := fun _ => none }

/-- Inductive invariant of the race: mutual exclusion, the analysis entry
appears exactly when a task has committed, the AI has been called exactly
by tasks at or past the commit point, at most one task ever commits, and
every finished task observed the committed palette. -/
structure ConcInv (n : Nat) (aiColors : Colors) (s : ConcState n) : Prop where
  locked_iff : ∀ i, (s.pc i = .atDoubleCheck ∨ s.pc i = .atAnalyze ∨
    s.pc i = .atCommit) ↔ s.mutexOwner = some i
  analysis_val : s.analysis = none ∨ s.analysis = some aiColors
  done_analysis : ∀ i, s.pc i = .doneViaAnalyze → s.analysis = some aiColors
  analysis_done : s.analysis ≠ none → ∃ i, s.pc i = .doneViaAnalyze
  working_none : ∀ i, (s.pc i = .atAnalyze ∨ s.pc i = .atCommit) →
    s.analysis = none
  called_iff : ∀ i, s.calledAI i = true ↔
    (s.pc i = .atCommit ∨ s.pc i = .doneViaAnalyze)
  done_unique : ∀ i j, s.pc i = .doneViaAnalyze → s.pc j = .doneViaAnalyze →
    i = j
  dc_observed : ∀ i, s.pc i = .doneViaDoubleCheck →
    s.observed i = some aiColors
  da_observed : ∀ i, s.pc i = .doneViaAnalyze → s.observed i = some aiColors
  dc_implies_da : ∀ i, s.pc i = .doneViaDoubleCheck →
    ∃ j, s.pc j = .doneViaAnalyze

/-- The initial state satisfies the invariant. -/
theorem concInv_init (n : Nat) (aiColors : Colors) :
    ConcInv n aiColors (ConcInit n) := by
  constructor <;> simp [ConcInit]

/-- Case split for reading a pointwise-updated function. -/
theorem update_eq_cases {α β : Type} [DecidableEq α] (f : α → β) (i j : α)
    (v w : β) (h : Function.update f i v j = w) :
    (j = i ∧ v = w) ∨ (j ≠ i ∧ f j = w) := by
  by_cases hji : j = i
  · subst hji
    rw [Function.update_same] at h
    exact Or.inl ⟨rfl, h⟩
  · rw [Function.update_noteq hji] at h
    exact Or.inr ⟨hji, h⟩

/-- The invariant is preserved by every interleaving step. -/
theorem concInv_step {n : Nat} {aiColors : Colors} {s s' : ConcState n}
    (inv : ConcInv n aiColors s) (hstep : ConcStep n aiColors s s') :
    ConcInv n aiColors s' := by
  cases hstep with
  | lock i hpc hmu =>
      have nolock : ∀ j, ¬(s.pc j = .atDoubleCheck ∨ s.pc j = .atAnalyze ∨
          s.pc j = .atCommit) := by
        intro j hL
        have h := (inv.locked_iff j).mp hL
        rw [hmu] at h
        exact nomatch h
      refine ⟨?_, inv.analysis_val, ?_, ?_, ?_, ?_, ?_, ?_, ?_, ?_⟩
      · intro j
        dsimp only
        by_cases hji : j = i
        · subst hji
          rw [Function.update_same]
          simp
        · rw [Function.update_noteq hji]
          constructor
          · intro hL
            exact absurd hL (nolock j)
          · intro hj
            exact absurd (Option.some.inj hj).symm hji
      · intro j hj
        dsimp only at hj ⊢
        rcases update_eq_cases _ _ _ _ _ hj with ⟨_, hv⟩ | ⟨_, hj⟩
        · exact nomatch hv
        · exact inv.done_analysis j hj
      · intro hne
        dsimp only at hne ⊢
        obtain ⟨j, hj⟩ := inv.analysis_done hne
        have hji : j ≠ i := by
          intro h
          rw [h, hpc] at hj
          exact nomatch hj
        exact ⟨j, by rw [Function.update_noteq hji]; exact hj⟩
      · intro j hj
        dsimp only at hj ⊢
        rcases hj with hj | hj <;>
          rcases update_eq_cases _ _ _ _ _ hj with ⟨_, hv⟩ | ⟨_, hj'⟩
        · exact nomatch hv
        · exact inv.working_none j (Or.inl hj')
        · exact nomatch hv
        · exact inv.working_none j (Or.inr hj')
      · intro j
        dsimp only
        by_cases hji : j = i
        · subst hji
          rw [Function.update_same]
          constructor
          · intro hc
            rcases (inv.called_iff j).mp hc with h | h <;> rw [hpc] at h <;>
              exact nomatch h
          · intro h
            rcases h with h | h <;> exact nomatch h
        · rw [Function.update_noteq hji]
          exact inv.called_iff j
      · intro j k hj hk
        dsimp only at hj hk
        rcases update_eq_cases _ _ _ _ _ hj with ⟨_, hv⟩ | ⟨_, hj'⟩
        · exact nomatch hv
        rcases update_eq_cases _ _ _ _ _ hk with ⟨_, hv⟩ | ⟨_, hk'⟩
        · exact nomatch hv
        exact inv.done_unique j k hj' hk'
      · intro j hj
        dsimp only at hj ⊢
        rcases update_eq_cases _ _ _ _ _ hj with ⟨_, hv⟩ | ⟨_, hj'⟩
        · exact nomatch hv
        · exact inv.dc_observed j hj'
      · intro j hj
        dsimp only at hj ⊢
        rcases update_eq_cases _ _ _ _ _ hj with ⟨_, hv⟩ | ⟨_, hj'⟩
        · exact nomatch hv
        · exact inv.da_observed j hj'
      · intro j hj
        dsimp only at hj ⊢
        rcases update_eq_cases _ _ _ _ _ hj with ⟨_, hv⟩ | ⟨_, hj'⟩
        · exact nomatch hv
        obtain ⟨k, hk⟩ := inv.dc_implies_da j hj'
        have hki : k ≠ i := by
          intro h
          rw [h, hpc] at hk
          exact nomatch hk
        exact ⟨k, by rw [Function.update_noteq hki]; exact hk⟩
  | checkHit i c hpc hmu hana =>
      have hc : c = aiColors := by
        rcases inv.analysis_val with h | h
        · rw [hana] at h
          exact nomatch h
        · rw [hana] at h
          exact Option.some.inj h
      subst hc
      have honly : ∀ j, (s.pc j = .atDoubleCheck ∨ s.pc j = .atAnalyze ∨
          s.pc j = .atCommit) → j = i := by
        intro j hL
        have h := (inv.locked_iff j).mp hL
        rw [hmu] at h
        exact (Option.some.inj h).symm
      refine ⟨?_, inv.analysis_val, ?_, ?_, ?_, ?_, ?_, ?_, ?_, ?_⟩
      · intro j
        dsimp only
        constructor
        · intro hL
          exfalso
          rcases update_eq_cases _ _ _ _ _ (rfl :
              Function.update s.pc i TaskPc.doneViaDoubleCheck j =
              Function.update s.pc i TaskPc.doneViaDoubleCheck j) with h | h
          · rcases hL with hL | hL | hL <;> rw [h.2.symm] at hL <;> exact nomatch hL
          · rw [h.2.symm] at hL
            have hji := honly j hL
            exact h.1 hji
        · intro h
          exact nomatch h
      · intro j hj
        dsimp only at hj ⊢
        rcases update_eq_cases _ _ _ _ _ hj with ⟨_, hv⟩ | ⟨_, hj'⟩
        · exact nomatch hv
        · exact inv.done_analysis j hj'
      · intro hne
        dsimp only at hne ⊢
        obtain ⟨j, hj⟩ := inv.analysis_done hne
        have hji : j ≠ i := by
          intro h
          rw [h, hpc] at hj
          exact nomatch hj
        exact ⟨j, by rw [Function.update_noteq hji]; exact hj⟩
      · intro j hj
        dsimp only at hj ⊢
        rcases hj with hj | hj <;>
          rcases update_eq_cases _ _ _ _ _ hj with ⟨_, hv⟩ | ⟨_, hj'⟩
        · exact nomatch hv
        · exact inv.working_none j (Or.inl hj')
        · exact nomatch hv
        · exact inv.working_none j (Or.inr hj')
      · intro j
        dsimp only
        by_cases hji : j = i
        · subst hji
          rw [Function.update_same]
          constructor
          · intro hcA
            rcases (inv.called_iff j).mp hcA with h | h <;> rw [hpc] at h <;>
              exact nomatch h
          · intro h
            rcases h with h | h <;> exact nomatch h
        · rw [Function.update_noteq hji]
          exact inv.called_iff j
      · intro j k hj hk
        dsimp only at hj hk
        rcases update_eq_cases _ _ _ _ _ hj with ⟨_, hv⟩ | ⟨_, hj'⟩
        · exact nomatch hv
        rcases update_eq_cases _ _ _ _ _ hk with ⟨_, hv⟩ | ⟨_, hk'⟩
        · exact nomatch hv
        exact inv.done_unique j k hj' hk'
      · intro j hj
        dsimp only at hj ⊢
        by_cases hji : j = i
        · subst hji
          rw [Function.update_same]
        · rw [Function.update_noteq hji] at hj ⊢
          exact inv.dc_observed j hj
      · intro j hj
        dsimp only at hj ⊢
        rcases update_eq_cases _ _ _ _ _ hj with ⟨_, hv⟩ | ⟨hji, hj'⟩
        · exact nomatch hv
        · rw [Function.update_noteq hji]
          exact inv.da_observed j hj'
      · intro j hj
        dsimp only at hj ⊢
        obtain ⟨k, hk⟩ := inv.analysis_done (by rw [hana]; exact nofun)
        have hki : k ≠ i := by
          intro h
          rw [h, hpc] at hk
          exact nomatch hk
        exact ⟨k, by rw [Function.update_noteq hki]; exact hk⟩
  | checkMiss i hpc hmu hana =>
      refine ⟨?_, Or.inl hana, ?_, ?_, ?_, ?_, ?_, ?_, ?_, ?_⟩
      · intro j
        dsimp only
        by_cases hji : j = i
        · subst hji
          rw [Function.update_same, hmu]
          simp
        · rw [Function.update_noteq hji]
          exact inv.locked_iff j
      · intro j hj
        dsimp only at hj ⊢
        rcases update_eq_cases _ _ _ _ _ hj with ⟨_, hv⟩ | ⟨_, hj'⟩
        · exact nomatch hv
        · have h := inv.done_analysis j hj'
          rw [hana] at h
          exact nomatch h
      · intro hne
        dsimp only at hne
        exact absurd hana hne
      · intro j hj
        dsimp only at hj ⊢
        exact hana
      · intro j
        dsimp only
        by_cases hji : j = i
        · subst hji
          rw [Function.update_same]
          constructor
          · intro hc
            rcases (inv.called_iff j).mp hc with h | h <;> rw [hpc] at h <;>
              exact nomatch h
          · intro h
            rcases h with h | h <;> exact nomatch h
        · rw [Function.update_noteq hji]
          exact inv.called_iff j
      · intro j k hj hk
        dsimp only at hj hk
        rcases update_eq_cases _ _ _ _ _ hj with ⟨_, hv⟩ | ⟨_, hj'⟩
        · exact nomatch hv
        rcases update_eq_cases _ _ _ _ _ hk with ⟨_, hv⟩ | ⟨_, hk'⟩
        · exact nomatch hv
        exact inv.done_unique j k hj' hk'
      · intro j hj
        dsimp only at hj ⊢
        rcases update_eq_cases _ _ _ _ _ hj with ⟨_, hv⟩ | ⟨_, hj'⟩
        · exact nomatch hv
        · exact inv.dc_observed j hj'
      · intro j hj
        dsimp only at hj ⊢
        rcases update_eq_cases _ _ _ _ _ hj with ⟨_, hv⟩ | ⟨_, hj'⟩
        · exact nomatch hv
        · exact inv.da_observed j hj'
      · intro j hj
        dsimp only at hj ⊢
        rcases update_eq_cases _ _ _ _ _ hj with ⟨_, hv⟩ | ⟨_, hj'⟩
        · exact nomatch hv
        obtain ⟨k, hk⟩ := inv.dc_implies_da j hj'
        have hki : k ≠ i := by
          intro h
          rw [h, hpc] at hk
          exact nomatch hk
        exact ⟨k, by rw [Function.update_noteq hki]; exact hk⟩
  | analyze i hpc hmu =>
      have hana : s.analysis = none := inv.working_none i (Or.inl hpc)
      refine ⟨?_, Or.inl hana, ?_, ?_, ?_, ?_, ?_, ?_, ?_, ?_⟩
      · intro j
        dsimp only
        by_cases hji : j = i
        · subst hji
          rw [Function.update_same, hmu]
          simp
        · rw [Function.update_noteq hji]
          exact inv.locked_iff j
      · intro j hj
        dsimp only at hj ⊢
        rcases update_eq_cases _ _ _ _ _ hj with ⟨_, hv⟩ | ⟨_, hj'⟩
        · exact nomatch hv
        · have h := inv.done_analysis j hj'
          rw [hana] at h
          exact nomatch h
      · intro hne
        dsimp only at hne
        exact absurd hana hne
      · intro j hj
        dsimp only at hj ⊢
        exact hana
      · intro j
        dsimp only
        by_cases hji : j = i
        · subst hji
          rw [Function.update_same, Function.update_same]
          simp
        · rw [Function.update_noteq hji, Function.update_noteq hji]
          exact inv.called_iff j
      · intro j k hj hk
        dsimp only at hj hk
        rcases update_eq_cases _ _ _ _ _ hj with ⟨_, hv⟩ | ⟨_, hj'⟩
        · exact nomatch hv
        rcases update_eq_cases _ _ _ _ _ hk with ⟨_, hv⟩ | ⟨_, hk'⟩
        · exact nomatch hv
        exact inv.done_unique j k hj' hk'
      · intro j hj
        dsimp only at hj ⊢
        rcases update_eq_cases _ _ _ _ _ hj with ⟨_, hv⟩ | ⟨_, hj'⟩
        · exact nomatch hv
        · exact inv.dc_observed j hj'
      · intro j hj
        dsimp only at hj ⊢
        rcases update_eq_cases _ _ _ _ _ hj with ⟨_, hv⟩ | ⟨_, hj'⟩
        · exact nomatch hv
        · exact inv.da_observed j hj'
      · intro j hj
        dsimp only at hj ⊢
        rcases update_eq_cases _ _ _ _ _ hj with ⟨_, hv⟩ | ⟨_, hj'⟩
        · exact nomatch hv
        obtain ⟨k, hk⟩ := inv.dc_implies_da j hj'
        have hki : k ≠ i := by
          intro h
          rw [h, hpc] at hk
          exact nomatch hk
        exact ⟨k, by rw [Function.update_noteq hki]; exact hk⟩
  | commit i hpc hmu =>
      have hana : s.analysis = none := inv.working_none i (Or.inr hpc)
      have nodone : ∀ j, s.pc j ≠ .doneViaAnalyze := by
        intro j hj
        have h := inv.done_analysis j hj
        rw [hana] at h
        exact nomatch h
      have honly : ∀ j, (s.pc j = .atDoubleCheck ∨ s.pc j = .atAnalyze ∨
          s.pc j = .atCommit) → j = i := by
        intro j hL
        have h := (inv.locked_iff j).mp hL
        rw [hmu] at h
        exact (Option.some.inj h).symm
      refine ⟨?_, Or.inr rfl, ?_, ?_, ?_, ?_, ?_, ?_, ?_, ?_⟩
      · intro j
        dsimp only
        constructor
        · intro hL
          exfalso
          by_cases hji : j = i
          · subst hji
            rw [Function.update_same] at hL
            rcases hL with hL | hL | hL <;> exact nomatch hL
          · rw [Function.update_noteq hji] at hL
            exact hji (honly j hL)
        · intro h
          exact nomatch h
      · intro j hj
        rfl
      · intro hne
        dsimp only
        exact ⟨i, by rw [Function.update_same]⟩
      · intro j hj
        dsimp only at hj
        exfalso
        rcases hj with hj | hj <;>
          rcases update_eq_cases _ _ _ _ _ hj with ⟨_, hv⟩ | ⟨hji, hj'⟩
        · exact nomatch hv
        · exact hji (honly j (Or.inr (Or.inl hj')))
        · exact nomatch hv
        · exact hji (honly j (Or.inr (Or.inr hj')))
      · intro j
        dsimp only
        by_cases hji : j = i
        · subst hji
          rw [Function.update_same]
          have hc : s.calledAI j = true := (inv.called_iff j).mpr (Or.inl hpc)
          rw [hc]
          simp
        · rw [Function.update_noteq hji]
          exact inv.called_iff j
      · intro j k hj hk
        dsimp only at hj hk
        rcases update_eq_cases _ _ _ _ _ hj with ⟨hji, _⟩ | ⟨_, hj'⟩
        · rcases update_eq_cases _ _ _ _ _ hk with ⟨hki, _⟩ | ⟨_, hk'⟩
          · rw [hji, hki]
          · exact absurd hk' (nodone k)
        · exact absurd hj' (nodone j)
      · intro j hj
        dsimp only at hj ⊢
        rcases update_eq_cases _ _ _ _ _ hj with ⟨_, hv⟩ | ⟨hji, hj'⟩
        · exact nomatch hv
        · rw [Function.update_noteq hji]
          exact inv.dc_observed j hj'
      · intro j hj
        dsimp only at hj ⊢
        rcases update_eq_cases _ _ _ _ _ hj with ⟨hji, _⟩ | ⟨_, hj'⟩
        · subst hji
          rw [Function.update_same]
        · exact absurd hj' (nodone j)
      · intro j hj
        dsimp only
        exact ⟨i, by rw [Function.update_same]⟩

/-- Every state reachable from the cold-cache initial state satisfies the
invariant. -/
theorem concInv_reachable {n : Nat} {aiColors : Colors} {s : ConcState n}
    (hreach : Relation.ReflTransGen (ConcStep n aiColors) (ConcInit n) s) :
    ConcInv n aiColors s := by
  induction hreach with
  | refl => exact concInv_init n aiColors
  | tail _ hstep ih => exact concInv_step ih hstep

/-- C1: in any interleaving of concurrent resolutions that all fingerprint
to the same image, started with no analysis entry for that fingerprint,
once all tasks have finished exactly one of them invoked the AI
collaborator (and finished by committing); every other task finished via
the double-check under the per-fingerprint mutex, never called the AI, and
observed the committed palette. -/
theorem exactly_one_ai_call (n : Nat) (aiColors : Colors) (s : ConcState n)
    (hreach : Relation.ReflTransGen (ConcStep n aiColors) (ConcInit n) s)
    (hn : 0 < n)
    (hdone : ∀ i, s.pc i = .doneViaDoubleCheck ∨ s.pc i = .doneViaAnalyze) :
    ∃ w, s.pc w = .doneViaAnalyze ∧ s.calledAI w = true ∧
      ∀ j, j ≠ w → s.pc j = .doneViaDoubleCheck ∧ s.calledAI j = false ∧
        s.observed j = some aiColors := by
  have inv := concInv_reachable hreach
  obtain ⟨w, hw⟩ : ∃ w, s.pc w = .doneViaAnalyze := by
    rcases hdone ⟨0, hn⟩ with h | h
    · exact inv.dc_implies_da _ h
    · exact ⟨_, h⟩
  refine ⟨w, hw, (inv.called_iff w).mpr (Or.inr hw), ?_⟩
  intro j hj
  have hjdc : s.pc j = .doneViaDoubleCheck := by
    rcases hdone j with h | h
    · exact h
    · exact absurd (inv.done_unique j w h hw) hj
  refine ⟨hjdc, ?_, inv.dc_observed j hjdc⟩
  cases hc : s.calledAI j
  · rfl
  · exfalso
    rcases (inv.called_iff j).mp hc with h | h <;> rw [hjdc] at h <;>
      exact nomatch h

/-- Concrete wallpaper info used by the witnesses. -/
def infoW : WallpaperInfo :=
  { title := "Aurora over Iceland"
    copyright := "Photog / Agency"
    copyrightLink := "https://example.com/license"
    startDate := "20251010"
    fullStartDate := "202510100700"
    endDate := "20251011"
    imageURLs := [("UHD", "https://example.com/uhd.jpg")] }

/-- Concrete palette used by the witnesses. -/
def colorsW : Colors := [("gradient_from", "#224466"), ("gradient_to", "#88aacc")]

/-- Environment of a successful download and successful analysis. -/
def envOkW : Env :=
  { now := 1000
    bing := .ok ([1, 2, 3], infoW)
    ai := .ok colorsW
    hashImage := fun _ => "abc123"
    analysisSave := .ok ()
    requestSave := .ok () }

/-- Environment of a successful download whose AI call fails. -/
def envAiFailW : Env :=
  { envOkW with ai := .error "model overloaded" }

/-- State holding an analysis entry for the witness fingerprint and no
request entries. -/
def sCrossW : AppState :=
  { requestData := fun _ => none
    analysisData := fun h =>
      if h = "abc123" then some { imageHash := "abc123", colors := colorsW }
      else none }

/-- State holding one expired request entry for `en-US` daysAgo 0. -/
def sExpiredW : AppState :=
  { requestData := fun k =>
      if k = "en-US_0" then
        some { locale := "en-US", daysAgo := 0, imageHash := "abc123"
               imageURLs := [("UHD", "https://example.com/uhd.jpg")]
               title := "Aurora over Iceland", copyright := "Photog / Agency"
               copyrightLink := "https://example.com/license"
               startDate := "20251010", fullStartDate := "202510100700"
               endDate := "20251011", expiresAt := 900 }
      else none
    analysisData := fun h =>
      if h = "abc123" then some { imageHash := "abc123", colors := colorsW }
      else none }

/-- Witness for the C3 theorem: an entry that expired at 900 is not served
at time 1000 even though its analysis entry exists. -/
theorem expired_entry_never_served_as_hit_witness :
    handleGetColors envOkW "en-US" 0 sExpiredW =
      resolveMiss envOkW "en-US" 0 sExpiredW :=
  expired_entry_never_served_as_hit envOkW "en-US" 0 sExpiredW
    { locale := "en-US", daysAgo := 0, imageHash := "abc123"
      imageURLs := [("UHD", "https://example.com/uhd.jpg")]
      title := "Aurora over Iceland", copyright := "Photog / Agency"
      copyrightLink := "https://example.com/license"
      startDate := "20251010", fullStartDate := "202510100700"
      endDate := "20251011", expiresAt := 900 }
    (by decide) (by decide)

/-- Witness for the C2 theorem at a concrete cross-key hit: `ja-JP`
resolves an image already analyzed under another key. -/
theorem cross_key_hit_witness :
    (handleGetColors envOkW "ja-JP" 0 sCrossW).response =
      .ok (buildColorThemeFromInfo infoW
        { imageHash := "abc123", colors := colorsW } 1000) ∧
    (handleGetColors envOkW "ja-JP" 0 sCrossW).state.analysisData =
      sCrossW.analysisData ∧
    RequestCache.get (handleGetColors envOkW "ja-JP" 0 sCrossW).state.requestData
        "ja-JP" 0 = some
      { locale := "ja-JP", daysAgo := 0
        imageHash := envOkW.hashImage [1, 2, 3]
        imageURLs := infoW.imageURLs, title := infoW.title
        copyright := infoW.copyright, copyrightLink := infoW.copyrightLink
        startDate := infoW.startDate, fullStartDate := infoW.fullStartDate
        endDate := infoW.endDate, expiresAt := getNextHourBoundary envOkW.now } ∧
    ∀ h, Event.aiCall h ∉ (handleGetColors envOkW "ja-JP" 0 sCrossW).events := by
  have h := cross_key_hit_returns_palette_without_ai envOkW "ja-JP" 0 sCrossW
    [1, 2, 3] infoW { imageHash := "abc123", colors := colorsW }
    (Or.inl (by decide)) rfl (by decide)
  exact ⟨h.1, h.2.1, h.2.2.1, h.2.2.2⟩

/-- Witness for the C8 theorem: concrete failed AI call on a true miss. -/
theorem ai_failure_witness :
    handleGetColors envAiFailW "en-US" 0 AppState.empty =
      { response := .err 500 ("Failed to analyze colors: " ++ "model overloaded")
        state := AppState.empty
        events := [.bingFetch "en-US" 0, .mutexLock "abc123", .aiCall "abc123",
                   .releaseMutexCall "abc123", .mutexUnlock "abc123"] } :=
  ai_failure_releases_lock_writes_nothing envAiFailW "en-US" 0 AppState.empty
    [1, 2, 3] infoW "model overloaded" (Or.inl (by decide)) rfl (by decide) rfl

/-- Witness for the C7 theorem: concrete successful true-miss commit. -/
theorem commit_order_witness :
    (∀ (env' : Env) (locale' : String) (daysAgo' : Int) (s' : AppState),
        StoreInv s' → StoreInv (handleGetColors env' locale' daysAgo' s').state) ∧
    (handleGetColors envOkW "en-US" 0 AppState.empty).state.analysisData =
      AnalysisCache.setData AppState.empty.analysisData
        (envOkW.hashImage [1, 2, 3]) colorsW ∧
    (handleGetColors envOkW "en-US" 0 AppState.empty).state.requestData =
      RequestCache.set AppState.empty.requestData "en-US" 0
        (envOkW.hashImage [1, 2, 3]) infoW.imageURLs infoW.title
        infoW.copyright infoW.copyrightLink infoW.startDate infoW.fullStartDate
        infoW.endDate (getNextHourBoundary envOkW.now) ∧
    (handleGetColors envOkW "en-US" 0 AppState.empty).events =
      [.bingFetch "en-US" 0, .mutexLock (envOkW.hashImage [1, 2, 3]),
       .aiCall (envOkW.hashImage [1, 2, 3]),
       .analysisWrite (envOkW.hashImage [1, 2, 3]),
       .requestWrite (RequestCache.makeKey "en-US" 0),
       .releaseMutexCall (envOkW.hashImage [1, 2, 3]),
       .mutexUnlock (envOkW.hashImage [1, 2, 3])] :=
  analysis_committed_before_request_entry envOkW "en-US" 0 AppState.empty
    [1, 2, 3] infoW colorsW (Or.inl (by decide)) rfl (by decide) rfl

/-- Witness for the C4 theorem on the fresh registry with keys f1 and f2. -/
theorem getMutex_identity_witness :
    ((AnalysisCache.getMutex (AnalysisCache.getMutex LockRegistry.init "f1").2
        "f1").1 = (AnalysisCache.getMutex LockRegistry.init "f1").1) ∧
    ((AnalysisCache.getMutex (AnalysisCache.getMutex LockRegistry.init "f1").2
        "f2").1 ≠ (AnalysisCache.getMutex LockRegistry.init "f1").1) ∧
    (AnalysisCache.getMutex LockRegistry.init "f1").2.Inv ∧
    LockRegistry.init.Inv :=
  getMutex_same_key_same_instance LockRegistry.init LockRegistry.init_inv
    "f1" "f1" "f2" (by decide)

/-- Registry after a first GetMutex for f1: mutex id 0 registered. -/
def regW : LockRegistry := (AnalysisCache.getMutex LockRegistry.init "f1").2

/-- Witness for the C5 theorem: the f1 lock survives further GetMutex and
ReleaseMutex operations. -/
theorem locks_never_removed_witness :
    (regW.applyOps [.getMutexOp "f2", .releaseMutexOp "f1",
      .getMutexOp "f1", .releaseMutexOp "f2"]).processing "f1" = some 0 :=
  registered_lock_never_removed regW
    [.getMutexOp "f2", .releaseMutexOp "f1", .getMutexOp "f1",
     .releaseMutexOp "f2"] "f1" 0 (by decide)

/-- Witness for the C10 theorem: a write for `en-US` daysAgo 0 leaves the
entry of `ja-JP` daysAgo 0 untouched. -/
theorem request_set_never_clobbers_witness :
    RequestCache.get
      (RequestCache.set (fun _ => none) "en-US" 0 "abc123"
        [("UHD", "https://example.com/uhd.jpg")] "t" "c" "cl"
        "20251010" "202510100700" "20251011" 1000) "ja-JP" 0 =
      RequestCache.get (fun _ => none) "ja-JP" 0 :=
  request_set_never_clobbers_other_key (fun _ => none) "en-US" "ja-JP" 0 0
    "abc123" [("UHD", "https://example.com/uhd.jpg")] "t" "c" "cl"
    "20251010" "202510100700" "20251011" 1000 (by decide) (by decide)
    (by decide)

/-- Palette of the witness race. -/
def aiW : Colors := [("primary", "#336699")]

/-- Witness race, task 0 has acquired the mutex. -/
def raceS1 : ConcState 2 :=
  { ConcInit 2 with
    pc := Function.update (ConcInit 2).pc 0 .atDoubleCheck
    mutexOwner := some 0 }

/-- Witness race, task 0 saw the double-check miss. -/
def raceS2 : ConcState 2 :=
  { raceS1 with pc := Function.update raceS1.pc 0 .atAnalyze }

/-- Witness race, task 0 has called the AI collaborator. -/
def raceS3 : ConcState 2 :=
  { raceS2 with
    pc := Function.update raceS2.pc 0 .atCommit
    calledAI := Function.update raceS2.calledAI 0 true }

/-- Witness race, task 0 has committed and released the mutex. -/
def raceS4 : ConcState 2 :=
  { raceS3 with
    pc := Function.update raceS3.pc 0 .doneViaAnalyze
    analysis := some aiW
    observed := Function.update raceS3.observed 0 (some aiW)
    mutexOwner := none }

/-- Witness race, task 1 has acquired the mutex. -/
def raceS5 : ConcState 2 :=
  { raceS4 with
    pc := Function.update raceS4.pc 1 .atDoubleCheck
    mutexOwner := some 1 }

/-- Witness race, task 1 finished via the double-check hit. -/
def raceS6 : ConcState 2 :=
  { raceS5 with
    pc := Function.update raceS5.pc 1 .doneViaDoubleCheck
    observed := Function.update raceS5.observed 1 (some aiW)
    mutexOwner := none }

/-- The witness race is an execution of the step relation. -/
theorem race_reachable :
    Relation.ReflTransGen (ConcStep 2 aiW) (ConcInit 2) raceS6 :=
  .tail (.tail (.tail (.tail (.tail (.tail .refl
    (ConcStep.lock (ConcInit 2) 0 (by decide) (by decide)))
    (ConcStep.checkMiss raceS1 0 (by decide) (by decide) (by decide)))
    (ConcStep.analyze raceS2 0 (by decide) (by decide)))
    (ConcStep.commit raceS3 0 (by decide) (by decide)))
    (ConcStep.lock raceS4 1 (by decide) (by decide)))
    (ConcStep.checkHit raceS5 1 aiW (by decide) (by decide) (by decide))

/-- Witness for the C1 theorem on a concrete two-task race. -/
theorem exactly_one_ai_call_witness :
    (0 < 2) ∧
    (∀ i : Fin 2, raceS6.pc i = .doneViaDoubleCheck ∨
      raceS6.pc i = .doneViaAnalyze) ∧
    ∃ w, raceS6.pc w = .doneViaAnalyze ∧ raceS6.calledAI w = true ∧
      ∀ j, j ≠ w → raceS6.pc j = .doneViaDoubleCheck ∧
        raceS6.calledAI j = false ∧ raceS6.observed j = some aiW :=
  ⟨by decide, by decide,
    exactly_one_ai_call 2 aiW raceS6 race_reachable (by decide) (by decide)⟩
